import Mathlib

/-!
Shallow embedding of the dbmigrate migration engine (lib.go) and proofs of
the specification claims about it.  Pure string manipulation and the
migration runner's control flow are translated directly from the Go source;
database effects are represented by an explicit trace of statements sent to
the database together with the set of bookkeeping rows that ended up
committed.
-/

namespace Dbmigrate

/-- Character-list analogue of Go's byte-wise prefix test: `matchesAt s pat`
is true when `pat` is a leading run of `s`. -/
def matchesAt : List Char → List Char → Bool
  | _, [] => true
  | [], _ :: _ => false
  | c :: cs, p :: ps => c == p && matchesAt cs ps

/-- Embedding of Go `strings.Contains`: does `s` contain `pat` as a
contiguous run? -/
def hasSubstr (pat : List Char) : List Char → Bool
  | [] => pat.isEmpty
  | c :: cs => matchesAt (c :: cs) pat || hasSubstr pat cs

/-- Embedding of Go `strings.HasSuffix s suf`. -/
def strEndsWith (s suf : String) : Bool :=
  matchesAt s.data.reverse suf.data.reverse

/-- String-level substring containment (Go `strings.Contains`). -/
def strContains (pat s : String) : Bool :=
  hasSubstr pat.data s.data

/-- Concatenation of a list of strings in order (the effect of a
`strings.Builder` loop). -/
def concatAll : List String → String
  | [] => ""
  | s :: rest => s ++ concatAll rest

/-- Embedding of Go `strings.Split(name, "_")[0]`: the run of characters
before the first underscore (the whole string when there is none). -/
def versionOf (name : String) : String :=
  String.mk (name.data.takeWhile (fun c => c != '_'))

/-- Embedding of `len(bytes.TrimSpace(content)) == 0`: the content is empty
or entirely whitespace. -/
def wsOnly (s : String) : Bool :=
  s.data.all (fun c => c.isWhitespace)

/-- Embedding of Go `strings.TrimSpace`: drop leading and trailing
whitespace. -/
def trimWs (s : String) : String :=
  String.mk (((s.data.dropWhile Char.isWhitespace).reverse.dropWhile Char.isWhitespace).reverse)

/-- Stable insertion of an element into a list sorted by the strict order
`lt` (the element is placed before the first entry not below it, matching
Go's `sort.SliceStable`). -/
def insertStable (lt : String → String → Bool) (a : String) : List String → List String
  | [] => [a]
  | b :: bs => if lt b a then b :: insertStable lt a bs else a :: b :: bs

/-- Stable sort by the strict order `lt` (embedding of `sort.SliceStable`). -/
def sortStable (lt : String → String → Bool) : List String → List String
  | [] => []
  | a :: as => insertStable lt a (sortStable lt as)

/-- Lexicographic strict order on character lists, the order `strings.Compare`
induces (UTF-8 byte order coincides with code-point order). -/
def charsLt : List Char → List Char → Bool
  | [], [] => false
  | [], _ :: _ => true
  | _ :: _, [] => false
  | a :: as, b :: bs =>
    Nat.blt a.toNat b.toNat || (a == b && charsLt as bs)

/-- Strict lexicographic order on strings (`strings.Compare(a, b) == -1`). -/
def strLt (a b : String) : Bool := charsLt a.data b.data

/-- Ascending filename order (`strings.Compare(a, b) == -1`). -/
def sortAsc (l : List String) : List String :=
  sortStable (fun a b => strLt a b) l

/-- Descending filename order (`strings.Compare(a, b) == 1`). -/
def sortDesc (l : List String) : List String :=
  sortStable (fun a b => strLt b a) l

/-- Transaction modes (`DbTxnModeAll`, `DbTxnModePerFile`, `DbTxnModeNone`). -/
inductive DbTxnMode where
  | all
  | perFile
  | none
  deriving DecidableEq, Repr

/-- The `.no-db-txn.` filename marker. -/
def noDbTxnMarker : String := ".no-db-txn."

/-- Embedding of `requiresNoTransaction`: the filename contains the
`.no-db-txn.` marker. -/
def requiresNoTransaction (filename : String) : Bool :=
  hasSubstr noDbTxnMarker.data filename.data

/-- Embedding of the `DbTxnModeConflictError` struct. -/
structure DbTxnModeConflictError where
  files : List String
  currentMode : DbTxnMode
  deriving DecidableEq, Repr

/-- Embedding of `(*DbTxnModeConflictError).Error()`: the multi-line message
listing each offending file and pointing at `-db-txn-mode=per-file`. -/
def DbTxnModeConflictError.message (e : DbTxnModeConflictError) : String :=
  "Error: Cannot apply migrations in -db-txn-mode=all (default)\n\n" ++
  "The following migrations require -db-txn-mode=per-file:\n" ++
  concatAll (e.files.map (fun f => "  - " ++ f ++ "\n")) ++
  "\nRun with: dbmigrate -up -db-txn-mode=per-file"

/-- Embedding of `(*LockingNotSupportedError).Error()`. -/
def lockingNotSupportedMessage (driverName : String) : String :=
  driverName ++ " does not support cross-process locking.\n\n" ++
  "If you are certain only one migration process runs at a time, use:\n\n" ++
  "  dbmigrate -up -no-lock\n\n" ++
  "This is safe for single-process deployments (e.g., local development,\n" ++
  "single-node production with migrations run before app starts)."

/-- Embedding of `validateDbTxnMode`: in mode `all`, collect the files that
carry the `.no-db-txn.` marker and fail when there is at least one; in any
other mode succeed immediately. -/
def validateDbTxnMode (files : List String) (mode : DbTxnMode) : Option DbTxnModeConflictError :=
  if mode ≠ DbTxnMode.all then Option.none
  else
    let conflicts := files.filter (fun f => requiresNoTransaction f)
    if conflicts.isEmpty then Option.none
    else Option.some { files := conflicts, currentMode := mode }

/-- Errors the migration runner can return, mirroring lib.go's error values
(`errors.Wrapf` annotations are kept as structured data). -/
inductive MigErr where
  | txnModeConflict (e : DbTxnModeConflictError)
  | lockingNotSupported (driverName : String)
  | lockFailed
  | wrapped (filename : String)
  deriving DecidableEq, Repr

/-- A statement actually sent to the database: a migration file's content,
or one of the two bookkeeping updates. -/
inductive Stmt where
  | contentExec (filename : String)
  | insertVersion (ver : String)
  | deleteVersion (ver : String)
  deriving DecidableEq, Repr

/-- Observable outcome of a run: the bookkeeping rows that ended up
committed (inserted on up, deleted on down), the ordered trace of
statements sent to the database, the messages emitted through the
`logFilename` hook, and the returned error (if any). -/
structure RunOut where
  committed : List String
  sent : List Stmt
  logs : List String
  err : Option MigErr
  deriving DecidableEq, Repr

/-- Environment supplying each file's content, the success of each content
exec, and the success of lock acquisition.  Bookkeeping inserts/deletes
and per-file commits are modelled as succeeding (the claims under proof
only exercise content-exec failures). -/
structure Env where
  content : String → String
  execOk : String → Bool
  lockOk : Bool

/-- Statements a file contributes on a successful step: the content exec
(skipped when the content is whitespace-only) followed by its bookkeeping
statement. -/
def stmtsOf (env : Env) (book : String → Stmt) (f : String) : List Stmt :=
  if wsOnly (env.content f) then [book f]
  else [Stmt.contentExec f, book f]

/-- A file's step does not fail: its content is whitespace-only (never
executed) or its content exec succeeds. -/
def stepOk (env : Env) (f : String) : Prop :=
  wsOnly (env.content f) = true ∨ env.execOk f = true

/-- A file's step fails: non-whitespace content whose exec errors. -/
def stepFails (env : Env) (f : String) : Prop :=
  wsOnly (env.content f) = false ∧ env.execOk f = false

/-- Sequential per-file runner shared by `migrateUpPerFile`, `migrateUpNoTx`,
`migrateDownPerFile` and `migrateDownNoTx`: each file commits on its own
(its transaction wrapping, when present, is observationally the commit of
that single file), a failed content exec aborts the run wrapped with the
filename, and when at least one file already succeeded a
`"<n> <failNoun> before failure."` notification is emitted first.  The
`.no-db-txn.` branch of the per-file strategies differs from the
transactional branch only in which handle executes the statements, so both
reduce to the same step here.  `failMsg` renders the
`fmt.Sprintf("%d migrations ... before failure.", applied)` notification. -/
def seqGo (env : Env) (book : String → Stmt) (failMsg : Nat → String) :
    List String → Nat → List Stmt → List String → List String → RunOut
  | [], _, sent, logs, vers =>
    { committed := vers, sent := sent, logs := logs, err := Option.none }
  | f :: rest, applied, sent, logs, vers =>
    if wsOnly (env.content f) then
      seqGo env book failMsg rest (applied + 1) (sent ++ [book f]) (logs ++ [f])
        (vers ++ [versionOf f])
    else if env.execOk f then
      seqGo env book failMsg rest (applied + 1) (sent ++ [Stmt.contentExec f, book f])
        (logs ++ [f]) (vers ++ [versionOf f])
    else
      { committed := vers,
        sent := sent ++ [Stmt.contentExec f],
        logs := logs ++ (if applied > 0 then [failMsg applied] else []),
        err := Option.some (MigErr.wrapped f) }

/-- Single-transaction runner shared by `migrateUpAll` and `migrateDownAll`:
all statements go through one transaction; on a content-exec failure
everything rolls back (no bookkeeping row commits) and the error is
wrapped with the filename; on success the whole batch commits.  Filenames
are still logged per file as the loop progresses. -/
def txAllGo (env : Env) (book : String → Stmt) :
    List String → List Stmt → List String → List String → RunOut
  | [], sent, logs, vers =>
    { committed := vers, sent := sent, logs := logs, err := Option.none }
  | f :: rest, sent, logs, vers =>
    if wsOnly (env.content f) then
      txAllGo env book rest (sent ++ [book f]) (logs ++ [f]) (vers ++ [versionOf f])
    else if env.execOk f then
      txAllGo env book rest (sent ++ [Stmt.contentExec f, book f]) (logs ++ [f])
        (vers ++ [versionOf f])
    else
      { committed := [],
        sent := sent ++ [Stmt.contentExec f],
        logs := logs,
        err := Option.some (MigErr.wrapped f) }

/-- Bookkeeping statement for an up migration (`insert_new_version`). -/
def upBook (f : String) : Stmt := Stmt.insertVersion (versionOf f)

/-- Bookkeeping statement for a down migration (`delete_old_version`). -/
def downBook (f : String) : Stmt := Stmt.deleteVersion (versionOf f)

/-- Embedding of `migrateUpAll`. -/
def migrateUpAll (env : Env) (pendingFiles : List String) : RunOut :=
  txAllGo env upBook pendingFiles [] [] []

/-- Notification emitted when an up run fails after `n` applied files. -/
def upFailMsg (n : Nat) : String :=
  toString n ++ " migrations applied before failure."

/-- Notification emitted when a down run fails after `n` rolled-back files. -/
def downFailMsg (n : Nat) : String :=
  toString n ++ " migrations rolled back before failure."

/-- Embedding of `migrateUpPerFile`. -/
def migrateUpPerFile (env : Env) (pendingFiles : List String) : RunOut :=
  seqGo env upBook upFailMsg pendingFiles 0 [] [] []

/-- Embedding of `migrateUpNoTx`. -/
def migrateUpNoTx (env : Env) (pendingFiles : List String) : RunOut :=
  seqGo env upBook upFailMsg pendingFiles 0 [] [] []

/-- Embedding of `migrateDownAll`. -/
def migrateDownAll (env : Env) (downFiles : List String) : RunOut :=
  txAllGo env downBook downFiles [] [] []

/-- Embedding of `migrateDownPerFile`. -/
def migrateDownPerFile (env : Env) (downFiles : List String) : RunOut :=
  seqGo env downBook downFailMsg downFiles 0 [] [] []

/-- Embedding of `migrateDownNoTx`. -/
def migrateDownNoTx (env : Env) (downFiles : List String) : RunOut :=
  seqGo env downBook downFailMsg downFiles 0 [] [] []

/-- The warning emitted by `acquireLock` when locking is skipped on a
locking-capable adapter. -/
def noLockWarning : String :=
  "Warning: Running without cross-process locking. Concurrent migrations may cause corruption."

/-- The three-line advisory emitted by `warnMySQLDDL` when the driver is
`mysql`. -/
def mysqlDDLWarning : List String :=
  ["Warning: MySQL does not support transactional DDL.",
   "         DDL statements (CREATE, ALTER, DROP) commit implicitly.",
   "         Transaction mode has limited effect on DDL-heavy migrations."]

/-- Embedding of `warnMySQLDDL`: the advisory lines, emitted only for the
`mysql` driver. -/
def warnMySQLDDL (driverName : String) : List String :=
  if driverName = "mysql" then mysqlDDLWarning else []

/-- The part of a `Config` the runner's control flow depends on: the bound
driver name, whether its adapter supports locking, and the frozen
migration catalogue. -/
structure Config where
  driverName : String
  supportsLocking : Bool
  migrationFiles : List String

/-- Result of `acquireLock`: whether a pinned connection holding the lock is
returned, the warnings emitted, and the error (if any). -/
structure LockResult where
  conn : Bool
  logs : List String
  err : Option MigErr
  deriving DecidableEq, Repr

/-- Embedding of `(*Config).acquireLock`: with `noLock` set, warn (only on a
locking-capable adapter) and proceed with no pinned connection; otherwise a
non-locking adapter fails with `LockingNotSupportedError`, and a
locking-capable one pins a connection and acquires the advisory lock,
failing when acquisition fails (`env.lockOk` folds together the
connection-pinning and `AcquireLock` failure paths). -/
def acquireLock (c : Config) (lockOk : Bool) (noLock : Bool) : LockResult :=
  if noLock then
    { conn := false,
      logs := if c.supportsLocking then [noLockWarning] else [],
      err := Option.none }
  else if ¬ c.supportsLocking then
    { conn := false, logs := [], err := Option.some (MigErr.lockingNotSupported c.driverName) }
  else if lockOk then
    { conn := true, logs := [], err := Option.none }
  else
    { conn := false, logs := [], err := Option.some MigErr.lockFailed }

/-- Embedding of the pending-file collection loop in `MigrateUpWithMode`:
sort ascending, keep the `up.sql` files whose version token is not yet in
the versions store. -/
def pendingUpFiles (files : List String) (appliedVers : List String) : List String :=
  (sortAsc files).filter
    (fun f => strEndsWith f "up.sql" && !(appliedVers.contains (versionOf f)))

/-- Embedding of the down-file collection loop in `MigrateDownWithMode`:
walk the (descending-sorted) catalogue keeping `down.sql` files whose
version is in the versions store, counting each kept candidate and
breaking out of the loop once the count would exceed `downStep`. -/
def collectDownGo (appliedVers : List String) (downStep : Int) :
    List String → Int → List String
  | [], _ => []
  | f :: rest, counted =>
    if strEndsWith f "down.sql" then
      if appliedVers.contains (versionOf f) then
        if counted + 1 > downStep then []
        else f :: collectDownGo appliedVers downStep rest (counted + 1)
      else collectDownGo appliedVers downStep rest counted
    else collectDownGo appliedVers downStep rest counted

/-- The down-set selected by `MigrateDownWithMode` for a catalogue, a
versions store, and a requested count. -/
def downFilesOf (files : List String) (appliedVers : List String) (downStep : Int) :
    List String :=
  collectDownGo appliedVers downStep (sortDesc files) 0

/-- Result of a failed run that sent nothing and committed nothing, with the
given log messages. -/
def abortedRun (logs : List String) (e : MigErr) : RunOut :=
  { committed := [], sent := [], logs := logs, err := Option.some e }

/-- Embedding of `MigrateUpWithMode`: acquire the lock, emit the MySQL DDL
advisory, load the versions store (its create/select statements are not
part of the migration-statement trace), collect the pending up files,
validate them against the transaction mode, and dispatch to the strategy
for `mode`. -/
def MigrateUpWithMode (env : Env) (c : Config) (appliedVers : List String)
    (mode : DbTxnMode) (noLock : Bool) : RunOut :=
  let lr := acquireLock c env.lockOk noLock
  match lr.err with
  | Option.some e => abortedRun lr.logs e
  | Option.none =>
    let preLogs := lr.logs ++ warnMySQLDDL c.driverName
    let pendingFiles := pendingUpFiles c.migrationFiles appliedVers
    match validateDbTxnMode pendingFiles mode with
    | Option.some e => abortedRun preLogs (MigErr.txnModeConflict e)
    | Option.none =>
      let r :=
        match mode with
        | DbTxnMode.all => migrateUpAll env pendingFiles
        | DbTxnMode.perFile => migrateUpPerFile env pendingFiles
        | DbTxnMode.none => migrateUpNoTx env pendingFiles
      { r with logs := preLogs ++ r.logs }

/-- Embedding of `MigrateDownWithMode`: acquire the lock, emit the MySQL DDL
advisory, load the versions store, collect at most `downStep` applicable
down files in descending order, validate them against the transaction
mode, and dispatch to the strategy for `mode`. -/
def MigrateDownWithMode (env : Env) (c : Config) (appliedVers : List String)
    (downStep : Int) (mode : DbTxnMode) (noLock : Bool) : RunOut :=
  let lr := acquireLock c env.lockOk noLock
  match lr.err with
  | Option.some e => abortedRun lr.logs e
  | Option.none =>
    let preLogs := lr.logs ++ warnMySQLDDL c.driverName
    let downFiles := downFilesOf c.migrationFiles appliedVers downStep
    match validateDbTxnMode downFiles mode with
    | Option.some e => abortedRun preLogs (MigErr.txnModeConflict e)
    | Option.none =>
      let r :=
        match mode with
        | DbTxnMode.all => migrateDownAll env downFiles
        | DbTxnMode.perFile => migrateDownPerFile env downFiles
        | DbTxnMode.none => migrateDownNoTx env downFiles
      { r with logs := preLogs ++ r.logs }

/-- Embedding of the legacy `MigrateUp` entry point, which delegates to
`MigrateUpWithMode` with mode `all` and locking enabled. -/
def MigrateUp (env : Env) (c : Config) (appliedVers : List String) : RunOut :=
  MigrateUpWithMode env c appliedVers DbTxnMode.all false

/-- Embedding of the legacy `MigrateDown` entry point, which delegates to
`MigrateDownWithMode` with mode `all` and locking enabled. -/
def MigrateDown (env : Env) (c : Config) (appliedVers : List String)
    (downStep : Int) : RunOut :=
  MigrateDownWithMode env c appliedVers downStep DbTxnMode.all false

/-- Outcome of loading the versions store (`existingVersions`): the set of
applied versions, a combined error, or a crash.  `crash` models the Go
nil-pointer dereference that occurs when `errctx.Error()` is called on a
nil `errctx`. -/
inductive LoadOutcome where
  | ok (versions : List String)
  | combinedErr (ctx : String) (cause : String)
  | crash
  deriving DecidableEq, Repr

/-- Embedding of `(*Config).existingVersions`: best-effort execution of
`create_versions_table` yields `createErr` (`Option.none` when the create
succeeded), then `select_existing_versions` yields `selectResult`.  Rows
are whitespace-trimmed into the in-memory set.  When the select fails the
code runs `errors.Wrap(err, errctx.Error())`; with a nil `errctx` (the
create succeeded) the `errctx.Error()` call dereferences nil and the
function crashes instead of returning. -/
def existingVersions (createErr : Option String)
    (selectResult : Except String (List String)) : LoadOutcome :=
  match selectResult with
  | Except.ok rows => LoadOutcome.ok (rows.map (fun s => trimWs s))
  | Except.error cause =>
    match createErr with
    | Option.some ctx => LoadOutcome.combinedErr ctx cause
    | Option.none => LoadOutcome.crash

mutual
/-- A node of the virtual file tree handed to `New`: a leaf file or a
directory with children. -/
inductive FTree where
  | file (name : String)
  | dir (name : String) (children : FTreeList)

/-- Children of a directory node. -/
inductive FTreeList where
  | nil
  | cons (t : FTree) (ts : FTreeList)
end

/-- Path join as performed by `fs.WalkDir` below the root `"."`: entries
directly under the root keep their bare name. -/
def joinPath (pfx name : String) : String :=
  if pfx = "" then name else pfx ++ "/" ++ name

/-- Embedding of the walk callback's path computation in `New`: start from
the entry's path; when the path does not end in `.sql` but the entry name
does, use `filepath.Join(path, name)` instead. -/
def entryPath (path name : String) : String :=
  if (!(strEndsWith path ".sql")) && strEndsWith name ".sql" then path ++ "/" ++ name
  else path

mutual
/-- Paths recorded by `New`'s walk for one subtree, given the path prefix of
its parent directory. -/
def walkTree (pfx : String) : FTree → List String
  | FTree.file name => [entryPath (joinPath pfx name) name]
  | FTree.dir name children => walkTreeList (joinPath pfx name) children

/-- Paths recorded by `New`'s walk for a list of sibling subtrees. -/
def walkTreeList (pfx : String) : FTreeList → List String
  | FTreeList.nil => []
  | FTreeList.cons t ts => walkTree pfx t ++ walkTreeList pfx ts
end

/-- The migration catalogue `New` freezes for a file tree rooted at `"."`. -/
def catalogueOf (t : FTreeList) : List String :=
  walkTreeList "" t

/-- Embedding of the discovery part of `New`: the walk over an in-memory
tree cannot fail, so the catalogue is always returned; `New` performs no
further checks on the collected filenames. -/
def NewCatalogue (t : FTreeList) : Except String (List String) :=
  Except.ok (catalogueOf t)

mutual
/-- The paths of all leaf files of a subtree (reference description of the
walk, for comparison with `walkTree`). -/
def leafPaths (pfx : String) : FTree → List String
  | FTree.file name => [joinPath pfx name]
  | FTree.dir name children => leafPathsList (joinPath pfx name) children

/-- The paths of all leaf files of a list of sibling subtrees. -/
def leafPathsList (pfx : String) : FTreeList → List String
  | FTreeList.nil => []
  | FTreeList.cons t ts => leafPaths pfx t ++ leafPathsList pfx ts
end

/-- Embedding of `fqName`: prefix `name` with the schema when one is set. -/
def fqName (schema : Option String) (name : String) : String :=
  match schema with
  | Option.none => name
  | Option.some s => if s = "" then name else s ++ "." ++ name

/-- Embedding of the postgres adapter's `CreateVersionsTable`. -/
def postgresCreateVersionsTable (schema : Option String) : String :=
  "CREATE TABLE IF NOT EXISTS " ++ fqName schema "dbmigrate_versions" ++
  " (version char(14) NOT NULL PRIMARY KEY)"

/-- Embedding of the mysql adapter's `CreateVersionsTable` (the schema
argument is ignored, mirroring `func(_ *string) string`). -/
def mysqlCreateVersionsTable (_ : Option String) : String :=
  "CREATE TABLE dbmigrate_versions (version char(14) NOT NULL PRIMARY KEY)"

/-- Concrete environment: every file holds one ordinary statement and every
exec succeeds. -/
def allOkEnv : Env :=
  { content := fun _ => "SELECT 1;"
    execOk := fun _ => true
    lockOk := true }

/-- Concrete environment: every file holds whitespace-only content. -/
def wsEnv : Env :=
  { content := fun _ => "  \n\t "
    execOk := fun _ => true
    lockOk := true }

/-- Concrete environment: every content exec fails. -/
def failAllEnv : Env :=
  { content := fun _ => "SELECT FROM nowhere;"
    execOk := fun _ => false
    lockOk := true }

/-- Concrete environment: only `20240102_bad.up.sql` fails. -/
def failSecondEnv : Env :=
  { content := fun _ => "SELECT 1;"
    execOk := fun f => f != "20240102_bad.up.sql"
    lockOk := true }

/-- Concrete config with an ordinary up/down pair per version. -/
def plainCfg : Config :=
  { driverName := "postgres"
    supportsLocking := true
    migrationFiles := ["20240101_a.up.sql", "20240101_a.down.sql",
                       "20240102_b.up.sql", "20240102_b.down.sql"] }

/-- Concrete config whose pending set contains a `.no-db-txn.` file. -/
def conflictCfg : Config :=
  { driverName := "postgres"
    supportsLocking := true
    migrationFiles := ["20240101_a.up.sql", "20240103_idx.no-db-txn.up.sql"] }

/-- Concrete config bound to a non-locking driver. -/
def sqliteCfg : Config :=
  { driverName := "sqlite3"
    supportsLocking := false
    migrationFiles := ["20240101_a.up.sql"] }

/-- Concrete file tree holding a single non-`.sql` leaf. -/
def readmeTree : FTreeList :=
  FTreeList.cons (FTree.file "README.md") FTreeList.nil

/-- Concrete file tree holding two up files with the same version token. -/
def dupTree : FTreeList :=
  FTreeList.cons (FTree.file "20240101_a.up.sql")
    (FTreeList.cons (FTree.file "20240101_b.up.sql") FTreeList.nil)

/-! Helper lemmas about the string primitives. -/

theorem strData_append (s t : String) : (s ++ t).data = s.data ++ t.data := rfl

theorem matchesAt_append {a p : List Char} (b : List Char)
    (h : matchesAt a p = true) : matchesAt (a ++ b) p = true := by
  induction p generalizing a with
  | nil => simp [matchesAt]
  | cons q qs ih =>
    cases a with
    | nil => simp [matchesAt] at h
    | cons c cs =>
      simp only [matchesAt, Bool.and_eq_true] at h
      simp only [List.cons_append, matchesAt, Bool.and_eq_true]
      exact ⟨h.1, ih h.2⟩

theorem matchesAt_self_append (p t : List Char) : matchesAt (p ++ t) p = true := by
  induction p with
  | nil => simp [matchesAt]
  | cons q qs ih => simp [matchesAt, ih]

theorem hasSubstr_of_matchesAt {p s : List Char} (h : matchesAt s p = true) :
    hasSubstr p s = true := by
  cases s with
  | nil =>
    cases p with
    | nil => simp [hasSubstr]
    | cons q qs => simp [matchesAt] at h
  | cons c cs => simp [hasSubstr, h]

theorem hasSubstr_append_right {p s : List Char} (t : List Char)
    (h : hasSubstr p s = true) : hasSubstr p (t ++ s) = true := by
  induction t with
  | nil => simpa using h
  | cons c cs ih =>
    cases hs : cs ++ s with
    | nil => simp_all [hasSubstr]
    | cons d ds =>
      simp only [List.cons_append, hasSubstr, Bool.or_eq_true]
      right
      rw [← hs] at *
      exact ih

theorem hasSubstr_middle (a p b : List Char) : hasSubstr p (a ++ (p ++ b)) = true :=
  hasSubstr_append_right a (hasSubstr_of_matchesAt (matchesAt_self_append p b))

theorem strContains_append_right {pat s : String} (t : String)
    (h : strContains pat s = true) : strContains pat (t ++ s) = true := by
  simp only [strContains, strData_append]
  exact hasSubstr_append_right t.data h

theorem mem_insertStable {lt : String → String → Bool} {x a : String} {l : List String} :
    x ∈ insertStable lt a l ↔ x = a ∨ x ∈ l := by
  induction l with
  | nil => simp [insertStable]
  | cons b bs ih =>
    simp only [insertStable]
    split
    · simp only [List.mem_cons, ih]
      tauto
    · simp

theorem mem_sortStable {lt : String → String → Bool} {x : String} {l : List String} :
    x ∈ sortStable lt l ↔ x ∈ l := by
  induction l with
  | nil => simp [sortStable]
  | cons a as ih =>
    simp [sortStable, mem_insertStable, ih]

theorem strEndsWith_append (x name suf : String) (h : strEndsWith name suf = true) :
    strEndsWith (x ++ name) suf = true := by
  simp only [strEndsWith, strData_append, List.reverse_append] at *
  exact matchesAt_append x.data.reverse h

theorem entryPath_join (pfx name : String) :
    entryPath (joinPath pfx name) name = joinPath pfx name := by
  unfold entryPath
  cases hsql : strEndsWith name ".sql" with
  | false => simp
  | true =>
    have hpath : strEndsWith (joinPath pfx name) ".sql" = true := by
      unfold joinPath
      split
      · exact hsql
      · exact strEndsWith_append (pfx ++ "/") name ".sql" hsql
    simp [hpath]

mutual
theorem walkTree_eq_leafPaths : ∀ (pfx : String) (t : FTree),
    walkTree pfx t = leafPaths pfx t
  | pfx, FTree.file name => by
    rw [walkTree, leafPaths, entryPath_join]
  | pfx, FTree.dir name children => by
    rw [walkTree, leafPaths, walkTreeList_eq_leafPaths]
theorem walkTreeList_eq_leafPaths : ∀ (pfx : String) (ts : FTreeList),
    walkTreeList pfx ts = leafPathsList pfx ts
  | _, FTreeList.nil => rfl
  | pfx, FTreeList.cons t ts => by
    rw [walkTreeList, leafPathsList, walkTree_eq_leafPaths, walkTreeList_eq_leafPaths]
end

theorem hasSubstr_nil_pat (s : List Char) : hasSubstr [] s = true := by
  cases s <;> simp [hasSubstr, matchesAt, List.isEmpty]

theorem hasSubstr_append_left {p s : List Char} (t : List Char)
    (h : hasSubstr p s = true) : hasSubstr p (s ++ t) = true := by
  induction s with
  | nil =>
    simp only [hasSubstr, List.isEmpty_eq_true] at h
    subst h
    simpa using hasSubstr_nil_pat t
  | cons c cs ih =>
    simp only [hasSubstr, Bool.or_eq_true] at h
    rcases h with h | h
    · simp only [List.cons_append, hasSubstr, Bool.or_eq_true]
      left
      simpa using matchesAt_append t h
    · simp only [List.cons_append, hasSubstr, Bool.or_eq_true]
      right
      exact ih h

theorem strContains_append_left {pat s : String} (t : String)
    (h : strContains pat s = true) : strContains pat (s ++ t) = true := by
  simp only [strContains, strData_append]
  exact hasSubstr_append_left t.data h

theorem strContains_concatAll {f : String} {files : List String} {g : String → String}
    (hmem : f ∈ files) (hf : strContains f (g f) = true) :
    strContains f (concatAll (files.map g)) = true := by
  induction files with
  | nil => cases hmem
  | cons y ys ih =>
    rcases List.mem_cons.mp hmem with h | h
    · subst h
      simp only [List.map_cons, concatAll]
      exact strContains_append_left _ hf
    · simp only [List.map_cons, concatAll]
      exact strContains_append_right (g y) (ih h)

theorem strContains_self (s : String) : strContains s s = true := by
  have h : matchesAt (s.data ++ []) s.data = true := matchesAt_self_append s.data []
  simp only [List.append_nil] at h
  exact hasSubstr_of_matchesAt h

theorem conflict_message_mentions_perFile (e : DbTxnModeConflictError) :
    strContains "per-file" e.message = true := by
  unfold DbTxnModeConflictError.message
  have hT : strContains "per-file" "\nRun with: dbmigrate -up -db-txn-mode=per-file" = true := by
    decide
  simp only [strContains, strData_append, List.append_assoc] at hT ⊢
  exact hasSubstr_append_right _ (hasSubstr_append_right _ (hasSubstr_append_right _ hT))

theorem conflict_message_mentions_file (e : DbTxnModeConflictError) (f : String)
    (hf : f ∈ e.files) : strContains f e.message = true := by
  unfold DbTxnModeConflictError.message
  have hC : strContains f (concatAll (e.files.map (fun x => "  - " ++ x ++ "\n"))) = true :=
    strContains_concatAll hf
      (strContains_append_left "\n" (strContains_append_right "  - " (strContains_self f)))
  simp only [strContains, strData_append, List.append_assoc] at hC ⊢
  exact hasSubstr_append_right _ (hasSubstr_append_right _ (hasSubstr_append_left _ hC))

theorem validateDbTxnMode_all (files : List String) :
    validateDbTxnMode files DbTxnMode.all =
      (if (files.filter (fun f => requiresNoTransaction f)).isEmpty then Option.none
       else Option.some { files := files.filter (fun f => requiresNoTransaction f),
                          currentMode := DbTxnMode.all }) := by
  simp [validateDbTxnMode]

theorem validateDbTxnMode_perFile (files : List String) :
    validateDbTxnMode files DbTxnMode.perFile = Option.none := by
  simp [validateDbTxnMode]

theorem validateDbTxnMode_noneMode (files : List String) :
    validateDbTxnMode files DbTxnMode.none = Option.none := by
  simp [validateDbTxnMode]

theorem filter_not_isEmpty_of_any {l : List String} {p : String → Bool}
    (h : l.any p = true) : (l.filter p).isEmpty = false := by
  rcases List.any_eq_true.mp h with ⟨a, ha, hpa⟩
  have : a ∈ l.filter p := List.mem_filter.mpr ⟨ha, hpa⟩
  cases hE : (l.filter p).isEmpty with
  | false => rfl
  | true =>
    rw [List.isEmpty_eq_true] at hE
    rw [hE] at this
    cases this

theorem validateDbTxnMode_all_conflict {files : List String}
    (h : (files.any fun f => requiresNoTransaction f) = true) :
    validateDbTxnMode files DbTxnMode.all =
      Option.some { files := files.filter (fun f => requiresNoTransaction f),
                    currentMode := DbTxnMode.all } := by
  rw [validateDbTxnMode_all, if_neg]
  rw [filter_not_isEmpty_of_any h]
  simp

theorem validateDbTxnMode_all_clean {files : List String}
    (h : ∀ f ∈ files, requiresNoTransaction f = false) :
    validateDbTxnMode files DbTxnMode.all = Option.none := by
  rw [validateDbTxnMode_all, if_pos]
  rw [List.isEmpty_eq_true, List.filter_eq_nil_iff]
  intro a ha
  simp [h a ha]

/-! Closed forms of the execution strategies. -/

theorem seqGo_success (env : Env) (book : String → Stmt) (failMsg : Nat → String)
    (files : List String) :
    ∀ (applied : Nat) (sent : List Stmt) (logs vers : List String),
    (∀ f ∈ files, wsOnly (env.content f) = false → env.execOk f = true) →
    seqGo env book failMsg files applied sent logs vers =
      { committed := vers ++ files.map versionOf,
        sent := sent ++ (files.map (stmtsOf env book)).flatten,
        logs := logs ++ files,
        err := Option.none } := by
  induction files with
  | nil => intro applied sent logs vers _; simp [seqGo]
  | cons f rest ih =>
    intro applied sent logs vers h
    have hf := h f (List.mem_cons_self f rest)
    have hrest : ∀ g ∈ rest, wsOnly (env.content g) = false → env.execOk g = true :=
      fun g hg => h g (List.mem_cons_of_mem f hg)
    cases hws : wsOnly (env.content f) with
    | true =>
      rw [seqGo, if_pos hws, ih (applied + 1) _ _ _ hrest]
      simp [stmtsOf, hws, List.append_assoc]
    | false =>
      rw [seqGo, if_neg (by simp [hws]), if_pos (hf hws),
        ih (applied + 1) _ _ _ hrest]
      simp [stmtsOf, hws, List.append_assoc]

theorem txAllGo_success (env : Env) (book : String → Stmt)
    (files : List String) :
    ∀ (sent : List Stmt) (logs vers : List String),
    (∀ f ∈ files, wsOnly (env.content f) = false → env.execOk f = true) →
    txAllGo env book files sent logs vers =
      { committed := vers ++ files.map versionOf,
        sent := sent ++ (files.map (stmtsOf env book)).flatten,
        logs := logs ++ files,
        err := Option.none } := by
  induction files with
  | nil => intro sent logs vers _; simp [txAllGo]
  | cons f rest ih =>
    intro sent logs vers h
    have hf := h f (List.mem_cons_self f rest)
    have hrest : ∀ g ∈ rest, wsOnly (env.content g) = false → env.execOk g = true :=
      fun g hg => h g (List.mem_cons_of_mem f hg)
    cases hws : wsOnly (env.content f) with
    | true =>
      rw [txAllGo, if_pos hws, ih _ _ _ hrest]
      simp [stmtsOf, hws, List.append_assoc]
    | false =>
      rw [txAllGo, if_neg (by simp [hws]), if_pos (hf hws), ih _ _ _ hrest]
      simp [stmtsOf, hws, List.append_assoc]

theorem seqGo_failAt (env : Env) (book : String → Stmt) (failMsg : Nat → String) :
    ∀ (files : List String) (k : Nat) (hk : k < files.length)
      (applied : Nat) (sent : List Stmt) (logs vers : List String),
    (∀ i (hi : i < k), stepOk env (files.get ⟨i, Nat.lt_trans hi hk⟩)) →
    stepFails env (files.get ⟨k, hk⟩) →
    seqGo env book failMsg files applied sent logs vers =
      { committed := vers ++ (files.take k).map versionOf,
        sent := sent ++ ((files.take k).map (stmtsOf env book)).flatten ++
          [Stmt.contentExec (files.get ⟨k, hk⟩)],
        logs := logs ++ files.take k ++
          (if applied + k > 0 then [failMsg (applied + k)] else []),
        err := Option.some (MigErr.wrapped (files.get ⟨k, hk⟩)) } := by
  intro files
  induction files with
  | nil => intro k hk; cases hk
  | cons f rest ih =>
    intro k hk applied sent logs vers hpre hfail
    cases k with
    | zero =>
      simp only [List.get] at hfail
      rcases hfail with ⟨hws, hex⟩
      rw [seqGo, if_neg (by simp [hws]), if_neg (by simp [hex])]
      simp [List.get, List.take]
    | succ k' =>
      have hk' : k' < rest.length := Nat.succ_lt_succ_iff.mp hk
      have h0 : stepOk env f := by
        have := hpre 0 (Nat.succ_pos k')
        simpa [List.get] using this
      have hpre' : ∀ i (hi : i < k'), stepOk env (rest.get ⟨i, Nat.lt_trans hi hk'⟩) := by
        intro i hi
        have := hpre (i + 1) (Nat.succ_lt_succ hi)
        simpa [List.get] using this
      have hfail' : stepFails env (rest.get ⟨k', hk'⟩) := by
        simpa [List.get] using hfail
      have harith : applied + 1 + k' = applied + (k' + 1) := by omega
      cases hws : wsOnly (env.content f) with
      | true =>
        rw [seqGo, if_pos hws, ih k' hk' (applied + 1) _ _ _ hpre' hfail']
        simp [List.take, List.get, stmtsOf, hws, List.append_assoc, harith]
      | false =>
        have hex : env.execOk f = true := by
          rcases h0 with h | h
          · rw [hws] at h; cases h
          · exact h
        rw [seqGo, if_neg (by simp [hws]), if_pos hex,
          ih k' hk' (applied + 1) _ _ _ hpre' hfail']
        simp [List.take, List.get, stmtsOf, hws, List.append_assoc, harith]

theorem collectDownGo_eq_take (appliedVers : List String) (downStep : Int) :
    ∀ (l : List String) (counted : Int),
    collectDownGo appliedVers downStep l counted =
      (l.filter (fun f =>
        strEndsWith f "down.sql" && appliedVers.contains (versionOf f))).take
        (downStep - counted).toNat := by
  intro l
  induction l with
  | nil => intro counted; simp [collectDownGo]
  | cons f rest ih =>
    intro counted
    cases h1 : strEndsWith f "down.sql" with
    | false =>
      rw [collectDownGo, if_neg (by simp [h1]), ih counted]
      simp [List.filter_cons, h1]
    | true =>
      cases h2 : appliedVers.contains (versionOf f) with
      | false =>
        have h2' : ¬ (versionOf f ∈ appliedVers) := by simpa using h2
        rw [collectDownGo, if_pos h1, if_neg (by simpa using h2), ih counted]
        simp [List.filter_cons, h1, h2']
      | true =>
        have h2' : versionOf f ∈ appliedVers := by simpa using h2
        rw [collectDownGo, if_pos h1, if_pos h2]
        by_cases h3 : counted + 1 > downStep
        · rw [if_pos h3]
          have hz : (downStep - counted).toNat = 0 := by omega
          simp [List.filter_cons, h1, h2', hz]
        · rw [if_neg h3, ih (counted + 1)]
          have hs : (downStep - counted).toNat = (downStep - (counted + 1)).toNat + 1 := by
            omega
          simp [List.filter_cons, h1, h2', hs, List.take_succ_cons]

theorem downFilesOf_eq_take (files appliedVers : List String) (downStep : Int) :
    downFilesOf files appliedVers downStep =
      ((sortDesc files).filter (fun f =>
        strEndsWith f "down.sql" && appliedVers.contains (versionOf f))).take downStep.toNat := by
  rw [downFilesOf, collectDownGo_eq_take]
  norm_num

theorem catalogueOf_eq_leafPaths (t : FTreeList) :
    catalogueOf t = leafPathsList "" t := by
  rw [catalogueOf, walkTreeList_eq_leafPaths]

theorem acquireLock_not_supported {c : Config} (h : c.supportsLocking = false)
    (lockOk : Bool) :
    acquireLock c lockOk false =
      { conn := false, logs := [],
        err := Option.some (MigErr.lockingNotSupported c.driverName) } := by
  simp [acquireLock, h]

theorem book_mem_flatten (env : Env) (book : String → Stmt) {selected : List String}
    {f : String} (hf : f ∈ selected) :
    book f ∈ (selected.map (stmtsOf env book)).flatten := by
  refine List.mem_flatten.mpr ⟨stmtsOf env book f, List.mem_map_of_mem _ hf, ?_⟩
  unfold stmtsOf
  split <;> simp

theorem contentExec_not_mem_flatten (env : Env) (book : String → Stmt)
    {selected : List String} {f : String} (hws : wsOnly (env.content f) = true)
    (hbook : ∀ g, ¬ book g = Stmt.contentExec f) :
    Stmt.contentExec f ∉ (selected.map (stmtsOf env book)).flatten := by
  intro h
  rcases List.mem_flatten.mp h with ⟨s, hsmem, hmem⟩
  rcases List.mem_map.mp hsmem with ⟨g, hg, rfl⟩
  unfold stmtsOf at hmem
  split at hmem
  · have := List.mem_singleton.mp hmem
    exact hbook g this.symm
  · rcases List.mem_cons.mp hmem with hcg | hbg
    · have hgf : g = f := by
        injection hcg.symm
      rename_i hwsg
      rw [hgf, hws] at hwsg
      exact hwsg rfl
    · have := List.mem_singleton.mp hbg
      exact hbook g this.symm

theorem successRun_props (env : Env) (book : String → Stmt) {selected : List String}
    {f : String} (hf : f ∈ selected) (hws : wsOnly (env.content f) = true)
    (hbook : ∀ g, ¬ book g = Stmt.contentExec f) {r : RunOut}
    (hr : r = { committed := [] ++ selected.map versionOf,
                sent := [] ++ (selected.map (stmtsOf env book)).flatten,
                logs := [] ++ selected,
                err := Option.none }) :
    r.err = Option.none ∧ Stmt.contentExec f ∉ r.sent ∧ book f ∈ r.sent ∧ f ∈ r.logs := by
  subst hr
  refine ⟨rfl, ?_, ?_, ?_⟩
  · simpa using contentExec_not_mem_flatten env book hws hbook
  · simpa using book_mem_flatten env book hf
  · simpa using hf

/-! Claim theorems. -/

/-- C10: the legacy entry points `MigrateUp` and `MigrateDown` are
extensionally equal to `MigrateUpWithMode` / `MigrateDownWithMode` invoked
with mode `all` and locking enabled; they add no behaviour of their own. -/
theorem claim_C10 (env : Env) (c : Config) (appliedVers : List String) (downStep : Int) :
    MigrateUp env c appliedVers = MigrateUpWithMode env c appliedVers DbTxnMode.all false ∧
    MigrateDown env c appliedVers downStep =
      MigrateDownWithMode env c appliedVers downStep DbTxnMode.all false :=
  ⟨rfl, rfl⟩

/-- C7 counterexample: the MySQL adapter's `create_versions_table` is not
the claimed `CREATE TABLE IF NOT EXISTS ...` statement. -/
theorem claim_C7_cex :
    ¬ (mysqlCreateVersionsTable Option.none =
      "CREATE TABLE IF NOT EXISTS dbmigrate_versions (version char(14) NOT NULL PRIMARY KEY)") := by
  decide

/-- C7 amended: the MySQL adapter's `create_versions_table` returns
`CREATE TABLE dbmigrate_versions (version char(14) NOT NULL PRIMARY KEY)`
for every schema argument — without the `IF NOT EXISTS` clause that the
Postgres adapter's DDL (without schema) carries — so re-running it against
an existing bookkeeping table errors; the engine tolerates this because
the creation attempt is best-effort. -/
theorem claim_C7 (schema : Option String) :
    mysqlCreateVersionsTable schema =
      "CREATE TABLE dbmigrate_versions (version char(14) NOT NULL PRIMARY KEY)" ∧
    postgresCreateVersionsTable Option.none =
      "CREATE TABLE IF NOT EXISTS dbmigrate_versions (version char(14) NOT NULL PRIMARY KEY)" :=
  ⟨rfl, rfl⟩

/-- C3: evaluating `existingVersions` at its two select-failure branches:
when the creation attempt also failed, the combined error (creation error
as context, select error as cause) is returned, as the claim states; but
when the creation succeeded (`errctx` is nil) and the select fails, the
code dereferences the nil `errctx` and crashes instead of returning. -/
theorem claim_C3 :
    existingVersions (Option.some "create: permission denied")
        (Except.error "select: connection reset") =
      LoadOutcome.combinedErr "create: permission denied" "select: connection reset" ∧
    existingVersions Option.none (Except.error "select: connection reset") =
      LoadOutcome.crash :=
  ⟨rfl, rfl⟩

/-- C6 counterexample: a tree holding only `README.md` yields a catalogue
containing `README.md`, although it does not end in `.sql` — non-`.sql`
entries are not excluded from the catalogue. -/
theorem claim_C6_cex :
    catalogueOf readmeTree = ["README.md"] ∧
    strEndsWith "README.md" ".sql" = false := by
  decide

/-- C6 amended: for every virtual file tree passed to `New`, the frozen
migration catalogue contains exactly the paths of all leaf files,
regardless of extension; entries that do not end in `.sql` are included
too (the walk's `.sql` redirect can never fire because the walk path
always ends with the entry name). -/
theorem claim_C6 (t : FTreeList) :
    NewCatalogue t = Except.ok (leafPathsList "" t) := by
  rw [NewCatalogue, catalogueOf_eq_leafPaths]

/-- C5: `acquireLock` implements the four-row gating table: `no_lock` with a
locking-capable adapter warns and proceeds with no pinned connection;
`no_lock` with a non-locking adapter proceeds silently; locking with a
capable adapter pins a connection and acquires the lock, erroring on
failure; locking with a non-locking adapter fails with
`LockingNotSupportedError` naming the driver (its message starts with the
driver name) and no execution is attempted. -/
theorem claim_C5 (c : Config) (lockOk : Bool) :
    (c.supportsLocking = true →
      acquireLock c lockOk true =
        { conn := false, logs := [noLockWarning], err := Option.none }) ∧
    (c.supportsLocking = false →
      acquireLock c lockOk true = { conn := false, logs := [], err := Option.none }) ∧
    (c.supportsLocking = true →
      acquireLock c true false = { conn := true, logs := [], err := Option.none } ∧
      acquireLock c false false =
        { conn := false, logs := [], err := Option.some MigErr.lockFailed }) ∧
    (c.supportsLocking = false →
      acquireLock c lockOk false =
        { conn := false, logs := [],
          err := Option.some (MigErr.lockingNotSupported c.driverName) } ∧
      matchesAt (lockingNotSupportedMessage c.driverName).data c.driverName.data = true ∧
      ∀ (env : Env) (appliedVers : List String) (mode : DbTxnMode),
        MigrateUpWithMode env c appliedVers mode false =
          abortedRun [] (MigErr.lockingNotSupported c.driverName)) := by
  refine ⟨?_, ?_, ?_, ?_⟩
  · intro h
    simp [acquireLock, h]
  · intro h
    simp [acquireLock, h]
  · intro h
    constructor <;> simp [acquireLock, h]
  · intro h
    refine ⟨acquireLock_not_supported h lockOk, ?_, ?_⟩
    · unfold lockingNotSupportedMessage
      simp only [strData_append, List.append_assoc]
      exact matchesAt_append _ (by
        have := matchesAt_self_append c.driverName.data []
        simpa using this)
    · intro env appliedVers mode
      rw [MigrateUpWithMode, acquireLock_not_supported h env.lockOk]

/-- C5 witness: concrete instantiations of the gating rows for a
locking-capable postgres config and a non-locking sqlite3 config. -/
theorem claim_C5_witness :
    acquireLock plainCfg true true =
      { conn := false, logs := [noLockWarning], err := Option.none } ∧
    acquireLock sqliteCfg true false =
      { conn := false, logs := [],
        err := Option.some (MigErr.lockingNotSupported "sqlite3") } := by
  constructor
  · exact (claim_C5 plainCfg true).1 (by decide)
  · have h := (((claim_C5 sqliteCfg true).2.2.2) (by decide)).1
    exact h.trans (by decide)

/-- C8 counterexample: two filenames with the same version token (`20240101`)
and the same direction (`up.sql`) are both returned by discovery without
any error — `New` does not reject the catalogue. -/
theorem claim_C8_cex :
    NewCatalogue dupTree = Except.ok ["20240101_a.up.sql", "20240101_b.up.sql"] ∧
    versionOf "20240101_a.up.sql" = versionOf "20240101_b.up.sql" ∧
    strEndsWith "20240101_a.up.sql" "up.sql" = true ∧
    strEndsWith "20240101_b.up.sql" "up.sql" = true :=
  ⟨rfl, by decide, by decide, by decide⟩

/-- C8 amended: discovery performs no duplicate detection: for any two
filenames yielding the same version token and the same (up) direction,
`New` succeeds and the catalogue retains both files; both are then
selected as pending whenever the shared version is unapplied. -/
theorem claim_C8 (n1 n2 : String) (appliedVers : List String)
    (h1 : strEndsWith n1 "up.sql" = true) (h2 : strEndsWith n2 "up.sql" = true)
    (h3 : versionOf n1 = versionOf n2)
    (h4 : appliedVers.contains (versionOf n1) = false) :
    NewCatalogue
        (FTreeList.cons (FTree.file n1) (FTreeList.cons (FTree.file n2) FTreeList.nil)) =
      Except.ok [n1, n2] ∧
    n1 ∈ pendingUpFiles [n1, n2] appliedVers ∧
    n2 ∈ pendingUpFiles [n1, n2] appliedVers := by
  refine ⟨?_, ?_, ?_⟩
  · rw [NewCatalogue, catalogueOf_eq_leafPaths]
    simp [leafPathsList, leafPaths, joinPath]
  · refine List.mem_filter.mpr ⟨mem_sortStable.mpr (by simp), ?_⟩
    simp only [h1, Bool.true_and, Bool.not_eq_eq_eq_not, Bool.not_true]
    simpa using h4
  · refine List.mem_filter.mpr ⟨mem_sortStable.mpr (by simp), ?_⟩
    rw [← h3] at *
    simp only [h2, Bool.true_and, Bool.not_eq_eq_eq_not, Bool.not_true]
    simpa using h4

/-- C8 witness: the amended statement at two concrete same-version up files
with an empty versions store. -/
theorem claim_C8_witness :
    NewCatalogue
        (FTreeList.cons (FTree.file "20240101_a.up.sql")
          (FTreeList.cons (FTree.file "20240101_b.up.sql") FTreeList.nil)) =
      Except.ok ["20240101_a.up.sql", "20240101_b.up.sql"] ∧
    "20240101_a.up.sql" ∈ pendingUpFiles ["20240101_a.up.sql", "20240101_b.up.sql"] [] ∧
    "20240101_b.up.sql" ∈ pendingUpFiles ["20240101_a.up.sql", "20240101_b.up.sql"] [] :=
  claim_C8 "20240101_a.up.sql" "20240101_b.up.sql" []
    (by decide) (by decide) (by decide) (by decide)

/-- C2 counterexample: when the very first pending file fails in `per-file`
mode, the run aborts with the filename-wrapped error but no
`... migrations applied before failure.` notification is emitted through
the log hook (the hook emits nothing at all), contradicting the claim
that such a notification is emitted for every failing index. -/
theorem claim_C2_cex :
    (migrateUpPerFile failAllEnv ["20240101_bad.up.sql"]).err =
      Option.some (MigErr.wrapped "20240101_bad.up.sql") ∧
    (migrateUpPerFile failAllEnv ["20240101_bad.up.sql"]).logs = [] := by
  constructor <;> decide

/-- C2 amended: in `per-file` mode, when the file at index `k` fails and
every earlier file succeeds, the run aborts with the error wrapped with
that filename, the bookkeeping inserts of the `k` earlier files remain
committed, no statement of any later file is sent, and — only when at
least one file succeeded before the failure (`k > 0`) — a
`"<k> migrations applied before failure."` notification is emitted after
the successful filenames. -/
theorem claim_C2 (env : Env) (pending : List String) (k : Nat)
    (hk : k < pending.length)
    (hpre : ∀ i (hi : i < k), stepOk env (pending.get ⟨i, Nat.lt_trans hi hk⟩))
    (hfail : stepFails env (pending.get ⟨k, hk⟩)) :
    migrateUpPerFile env pending =
      { committed := (pending.take k).map versionOf,
        sent := ((pending.take k).map (stmtsOf env upBook)).flatten ++
          [Stmt.contentExec (pending.get ⟨k, hk⟩)],
        logs := pending.take k ++ (if 0 < k then [upFailMsg k] else []),
        err := Option.some (MigErr.wrapped (pending.get ⟨k, hk⟩)) } := by
  have h := seqGo_failAt env upBook upFailMsg pending k hk 0 [] [] [] hpre hfail
  simpa [migrateUpPerFile] using h

/-- C2 witness: the amended statement at a concrete two-file pending list
whose second file fails. -/
theorem claim_C2_witness :
    migrateUpPerFile failSecondEnv ["20240101_ok.up.sql", "20240102_bad.up.sql"] =
      { committed := ["20240101"],
        sent := [Stmt.contentExec "20240101_ok.up.sql", Stmt.insertVersion "20240101",
                 Stmt.contentExec "20240102_bad.up.sql"],
        logs := ["20240101_ok.up.sql", "1 migrations applied before failure."],
        err := Option.some (MigErr.wrapped "20240102_bad.up.sql") } := by
  have h := claim_C2 failSecondEnv ["20240101_ok.up.sql", "20240102_bad.up.sql"] 1
    (by decide)
    (by
      intro i hi
      have h0 : i = 0 := by omega
      subst h0
      exact Or.inr (show failSecondEnv.execOk "20240101_ok.up.sql" = true by decide))
    (by exact ⟨by decide, by decide⟩)
  exact h.trans (by decide)

/-- C9: in every execution strategy (`all`, `per-file`, `none`, up and
down), a selected file with whitespace-only content is never sent to the
database as a content exec, yet its bookkeeping statement
(`insert_new_version` on up, `delete_old_version` on down) is still sent
and the run reports success for the file (its name is logged and the run
returns no error; all non-whitespace files are assumed to execute
successfully so the run completes). -/
theorem claim_C9 (env : Env) (selected : List String)
    (hs : ∀ g ∈ selected, wsOnly (env.content g) = false → env.execOk g = true)
    (f : String) (hf : f ∈ selected) (hws : wsOnly (env.content f) = true) :
    ((migrateUpAll env selected).err = Option.none ∧
      Stmt.contentExec f ∉ (migrateUpAll env selected).sent ∧
      Stmt.insertVersion (versionOf f) ∈ (migrateUpAll env selected).sent ∧
      f ∈ (migrateUpAll env selected).logs) ∧
    ((migrateUpPerFile env selected).err = Option.none ∧
      Stmt.contentExec f ∉ (migrateUpPerFile env selected).sent ∧
      Stmt.insertVersion (versionOf f) ∈ (migrateUpPerFile env selected).sent ∧
      f ∈ (migrateUpPerFile env selected).logs) ∧
    ((migrateUpNoTx env selected).err = Option.none ∧
      Stmt.contentExec f ∉ (migrateUpNoTx env selected).sent ∧
      Stmt.insertVersion (versionOf f) ∈ (migrateUpNoTx env selected).sent ∧
      f ∈ (migrateUpNoTx env selected).logs) ∧
    ((migrateDownAll env selected).err = Option.none ∧
      Stmt.contentExec f ∉ (migrateDownAll env selected).sent ∧
      Stmt.deleteVersion (versionOf f) ∈ (migrateDownAll env selected).sent ∧
      f ∈ (migrateDownAll env selected).logs) ∧
    ((migrateDownPerFile env selected).err = Option.none ∧
      Stmt.contentExec f ∉ (migrateDownPerFile env selected).sent ∧
      Stmt.deleteVersion (versionOf f) ∈ (migrateDownPerFile env selected).sent ∧
      f ∈ (migrateDownPerFile env selected).logs) ∧
    ((migrateDownNoTx env selected).err = Option.none ∧
      Stmt.contentExec f ∉ (migrateDownNoTx env selected).sent ∧
      Stmt.deleteVersion (versionOf f) ∈ (migrateDownNoTx env selected).sent ∧
      f ∈ (migrateDownNoTx env selected).logs) := by
  have hup : ∀ g, ¬ upBook g = Stmt.contentExec f := by
    intro g h
    simp [upBook] at h
  have hdown : ∀ g, ¬ downBook g = Stmt.contentExec f := by
    intro g h
    simp [downBook] at h
  refine ⟨?_, ?_, ?_, ?_, ?_, ?_⟩
  · exact successRun_props env upBook hf hws hup
      (by rw [migrateUpAll, txAllGo_success env upBook selected [] [] [] hs])
  · exact successRun_props env upBook hf hws hup
      (by rw [migrateUpPerFile, seqGo_success env upBook upFailMsg selected 0 [] [] [] hs])
  · exact successRun_props env upBook hf hws hup
      (by rw [migrateUpNoTx, seqGo_success env upBook upFailMsg selected 0 [] [] [] hs])
  · exact successRun_props env downBook hf hws hdown
      (by rw [migrateDownAll, txAllGo_success env downBook selected [] [] [] hs])
  · exact successRun_props env downBook hf hws hdown
      (by rw [migrateDownPerFile, seqGo_success env downBook downFailMsg selected 0 [] [] [] hs])
  · exact successRun_props env downBook hf hws hdown
      (by rw [migrateDownNoTx, seqGo_success env downBook downFailMsg selected 0 [] [] [] hs])

/-- C9 witness: a single whitespace-only file in each strategy, projected to
the `all`-mode up run. -/
theorem claim_C9_witness :
    (migrateUpAll wsEnv ["20240101_a.up.sql"]).err = Option.none ∧
    Stmt.contentExec "20240101_a.up.sql" ∉ (migrateUpAll wsEnv ["20240101_a.up.sql"]).sent ∧
    Stmt.insertVersion "20240101" ∈ (migrateUpAll wsEnv ["20240101_a.up.sql"]).sent ∧
    (migrateDownNoTx wsEnv ["20240101_a.down.sql"]).err = Option.none := by
  have h1 := claim_C9 wsEnv ["20240101_a.up.sql"]
    (by
      intro g hg hw
      have : g = "20240101_a.up.sql" := List.mem_singleton.mp hg
      subst this
      exact absurd hw (by decide))
    "20240101_a.up.sql" (by decide) (by decide)
  have h2 := claim_C9 wsEnv ["20240101_a.down.sql"]
    (by
      intro g hg hw
      have : g = "20240101_a.down.sql" := List.mem_singleton.mp hg
      subst this
      exact absurd hw (by decide))
    "20240101_a.down.sql" (by decide) (by decide)
  exact ⟨h1.1.1, h1.1.2.1, h1.1.2.2.1, h2.2.2.2.2.2.1⟩

/-- C1: with mode `all` and at least one `.no-db-txn.` file among the
selected files, `MigrateUpWithMode` and `MigrateDownWithMode` return the
structured conflict error carrying every offending filename, with nothing
sent to the database and no bookkeeping row committed (`abortedRun` has an
empty statement trace and an empty committed list); the error message
mentions `per-file` and every offending filename; with mode `per-file` or
`none`, the validation never produces an error. -/
theorem claim_C1 (env : Env) (c : Config) (appliedVers : List String) (noLock : Bool)
    (N : Int) (hlock : (acquireLock c env.lockOk noLock).err = Option.none) :
    ((pendingUpFiles c.migrationFiles appliedVers).any
        (fun f => requiresNoTransaction f) = true →
      MigrateUpWithMode env c appliedVers DbTxnMode.all noLock =
        abortedRun ((acquireLock c env.lockOk noLock).logs ++ warnMySQLDDL c.driverName)
          (MigErr.txnModeConflict
            { files := (pendingUpFiles c.migrationFiles appliedVers).filter
                (fun f => requiresNoTransaction f),
              currentMode := DbTxnMode.all })) ∧
    ((downFilesOf c.migrationFiles appliedVers N).any
        (fun f => requiresNoTransaction f) = true →
      MigrateDownWithMode env c appliedVers N DbTxnMode.all noLock =
        abortedRun ((acquireLock c env.lockOk noLock).logs ++ warnMySQLDDL c.driverName)
          (MigErr.txnModeConflict
            { files := (downFilesOf c.migrationFiles appliedVers N).filter
                (fun f => requiresNoTransaction f),
              currentMode := DbTxnMode.all })) ∧
    (∀ files : List String,
      validateDbTxnMode files DbTxnMode.perFile = Option.none ∧
      validateDbTxnMode files DbTxnMode.none = Option.none) ∧
    (∀ e : DbTxnModeConflictError,
      strContains "per-file" e.message = true ∧
      ∀ f ∈ e.files, strContains f e.message = true) := by
  refine ⟨?_, ?_, ?_, ?_⟩
  · intro hAny
    rw [MigrateUpWithMode]
    simp only [hlock]
    rw [validateDbTxnMode_all_conflict hAny]
  · intro hAny
    rw [MigrateDownWithMode]
    simp only [hlock]
    rw [validateDbTxnMode_all_conflict hAny]
  · intro files
    exact ⟨validateDbTxnMode_perFile files, validateDbTxnMode_noneMode files⟩
  · intro e
    exact ⟨conflict_message_mentions_perFile e,
      fun f hf => conflict_message_mentions_file e f hf⟩

/-- C1 witness: a concrete pending set containing a `.no-db-txn.` up file
under mode `all` aborts with the conflict error listing that file. -/
theorem claim_C1_witness :
    (acquireLock conflictCfg allOkEnv.lockOk false).err = Option.none ∧
    MigrateUpWithMode allOkEnv conflictCfg [] DbTxnMode.all false =
      abortedRun []
        (MigErr.txnModeConflict
          { files := ["20240103_idx.no-db-txn.up.sql"], currentMode := DbTxnMode.all }) := by
  refine ⟨by decide, ?_⟩
  have h := (claim_C1 allOkEnv conflictCfg [] false 1 (by decide)).1 (by decide)
  exact h.trans (by decide)

/-- C4: the down-set is the descending-sorted catalogue filtered to
`down.sql` files whose version is in the versions store, truncated at `N`
entries; `N = 0` selects no files; `N` at least the number of applicable
files selects all of them; and a down run over such a selection (mode
`all`, lock acquired, no `.no-db-txn.` file selected, every attempted
exec succeeding) returns success, committing exactly the selected
versions. -/
theorem claim_C4 (files appliedVers : List String) (N : Int) (env : Env) (c : Config)
    (hlock : (acquireLock c env.lockOk false).err = Option.none)
    (hclean : ∀ f ∈ downFilesOf c.migrationFiles appliedVers N,
      requiresNoTransaction f = false)
    (hexec : ∀ f ∈ downFilesOf c.migrationFiles appliedVers N,
      wsOnly (env.content f) = false → env.execOk f = true) :
    (downFilesOf files appliedVers N =
      ((sortDesc files).filter (fun f =>
        strEndsWith f "down.sql" && appliedVers.contains (versionOf f))).take N.toNat) ∧
    (downFilesOf files appliedVers 0 = []) ∧
    (((sortDesc files).filter (fun f =>
        strEndsWith f "down.sql" && appliedVers.contains (versionOf f))).length ≤ N.toNat →
      downFilesOf files appliedVers N =
        (sortDesc files).filter (fun f =>
          strEndsWith f "down.sql" && appliedVers.contains (versionOf f))) ∧
    ((MigrateDownWithMode env c appliedVers N DbTxnMode.all false).err = Option.none ∧
     (MigrateDownWithMode env c appliedVers N DbTxnMode.all false).committed =
       (downFilesOf c.migrationFiles appliedVers N).map versionOf) := by
  refine ⟨downFilesOf_eq_take files appliedVers N, ?_, ?_, ?_⟩
  · rw [downFilesOf_eq_take]
    simp
  · intro hlen
    rw [downFilesOf_eq_take]
    exact List.take_of_length_le hlen
  · have hrun : MigrateDownWithMode env c appliedVers N DbTxnMode.all false =
        { committed := [] ++ (downFilesOf c.migrationFiles appliedVers N).map versionOf,
          sent := [] ++ ((downFilesOf c.migrationFiles appliedVers N).map
            (stmtsOf env downBook)).flatten,
          logs := ((acquireLock c env.lockOk false).logs ++ warnMySQLDDL c.driverName) ++
            ([] ++ downFilesOf c.migrationFiles appliedVers N),
          err := Option.none } := by
      rw [MigrateDownWithMode]
      simp only [hlock]
      rw [validateDbTxnMode_all_clean hclean]
      rw [migrateDownAll, txAllGo_success env downBook _ [] [] [] hexec]
    rw [hrun]
    exact ⟨rfl, by simp⟩

/-- C4 witness: with versions `20240101` and `20240102` applied and `N = 5`
larger than the two applicable down files, both are selected in
descending order and the run succeeds. -/
theorem claim_C4_witness :
    (downFilesOf plainCfg.migrationFiles ["20240101", "20240102"] 0 = []) ∧
    (MigrateDownWithMode allOkEnv plainCfg ["20240101", "20240102"] 5
        DbTxnMode.all false).err = Option.none ∧
    (MigrateDownWithMode allOkEnv plainCfg ["20240101", "20240102"] 5
        DbTxnMode.all false).committed = ["20240102", "20240101"] := by
  have h := claim_C4 plainCfg.migrationFiles ["20240101", "20240102"] 5 allOkEnv plainCfg
    (by decide) (by decide) (by decide)
  refine ⟨h.2.1, h.2.2.2.1, ?_⟩
  exact h.2.2.2.2.trans (by decide)

end Dbmigrate
